import Mathlib

/-!
Verification of the Amagaki builder (src/builder.ts) against its specification.

Strings are embedded as lists of characters (`Str`), so that every operation the
builder performs on paths is a structurally recursive Lean function.
-/

namespace Amagaki

/-- A JavaScript string, embedded as its list of characters. -/
abbrev Str := List Char

/-! ## Node path.extname model and Builder.normalizePath (builder.ts lines 119-124)

`Builder.normalizePath` calls `fsPath.extname`.  `extname` (POSIX) returns the
substring of the last path segment from its last dot to the end, except that it
returns the empty string when the segment has no dot, when its only dot is its
first character (hidden files such as `.gitignore`), or when the segment is
exactly `..`.  The builder only applies `extname` to paths that do not end in a
slash (the trailing-slash case is handled first), so the trailing-slash
stripping that `extname` would otherwise perform never matters and is not
modelled. -/

/-- The last segment of a path: the characters after the last slash. -/
def basenamePart (p : Str) : Str :=
  (p.reverse.takeWhile (fun c => c != '/')).reverse

/-- Extension of a single path segment, per Node path.extname on that segment:
empty when the segment has no dot, when the last dot is the first character,
or when the segment is exactly two dots; otherwise from the last dot to the
end. -/
def extOf (b : Str) : Str :=
  let r := b.reverse
  let after := r.takeWhile (fun c => c != '.')
  if after.length = r.length then []
  else if after.length + 1 = r.length then []
  else if b = ['.', '.'] then []
  else '.' :: after.reverse

/-- Model of fsPath.extname as used by the builder (argument never ends in a
slash). -/
def extname (p : Str) : Str :=
  extOf (basenamePart p)

/-- Builder.normalizePath (builder.ts lines 119-124): trailing slash gets
`index.html` appended; otherwise a path with a truthy (nonempty) extension is
returned unchanged, and a path with an empty extension gets `/index.html`
appended. -/
def normalizePath (p : Str) : Str :=
  if p.getLast? = some '/' then p ++ "index.html".data
  else if extname p ≠ [] then p else p ++ "/index.html".data

theorem takeWhile_append_of_all {p : Char → Bool} {l1 l2 : Str}
    (h : ∀ a ∈ l1, p a = true) :
    (l1 ++ l2).takeWhile p = l1 ++ l2.takeWhile p := by
  induction l1 with
  | nil => simp
  | cons a l ih =>
    simp only [List.cons_append, List.takeWhile_cons]
    rw [h a (List.mem_cons_self a l)]
    simp [ih (fun b hb => h b (List.mem_cons_of_mem a hb))]

theorem basenamePart_append_slash (xs ys : Str) (h : ∀ c ∈ ys, c ≠ '/') :
    basenamePart (xs ++ '/' :: ys) = ys := by
  unfold basenamePart
  rw [List.reverse_append, List.reverse_cons]
  rw [List.append_assoc]
  rw [takeWhile_append_of_all (p := fun c => c != '/')
    (fun a ha => by
      have := h a (by simpa using ha)
      simp [bne, this])]
  simp

theorem getLast?_append_cons (xs : Str) (a : Char) (ys : Str) :
    (xs ++ a :: ys).getLast? = (a :: ys).getLast? := by
  induction xs with
  | nil => rfl
  | cons b l ih =>
    rw [List.cons_append]
    cases hl : l ++ a :: ys with
    | nil => exact absurd hl (by simp)
    | cons c m =>
      rw [List.getLast?_cons_cons]
      rw [← hl, ih]

theorem exists_append_of_getLast (p : Str) (a : Char) (h : p.getLast? = some a) :
    ∃ xs, p = xs ++ [a] := by
  induction p with
  | nil => simp at h
  | cons b l ih =>
    cases l with
    | nil =>
      simp only [List.getLast?_singleton, Option.some.injEq] at h
      exact ⟨[], by simp [h]⟩
    | cons c m =>
      rw [List.getLast?_cons_cons] at h
      obtain ⟨xs, hxs⟩ := ih h
      exact ⟨b :: xs, by simp [hxs]⟩

theorem normalizePath_fixed_append (xs : Str) :
    normalizePath (xs ++ '/' :: "index.html".data) = xs ++ '/' :: "index.html".data := by
  have hlast : (xs ++ '/' :: "index.html".data).getLast? = some 'l' := by
    rw [getLast?_append_cons]
    decide
  have hext : extname (xs ++ '/' :: "index.html".data) ≠ [] := by
    unfold extname
    rw [basenamePart_append_slash xs _ (by decide)]
    decide
  unfold normalizePath
  rw [hlast]
  simp only [if_neg (by decide : ¬ (some 'l' = some '/'))]
  rw [if_pos hext]

/-- Claim C7: for every url path, normalizePath appends index.html when the
path ends with a slash; appends /index.html when it does not end with a slash
and has no file extension; and returns the path unchanged otherwise. -/
theorem claim7_normalizePath_rule (p : Str) :
    (p.getLast? = some '/' → normalizePath p = p ++ "index.html".data)
    ∧ (p.getLast? ≠ some '/' → extname p = [] → normalizePath p = p ++ "/index.html".data)
    ∧ (p.getLast? ≠ some '/' → extname p ≠ [] → normalizePath p = p) := by
  unfold normalizePath
  refine ⟨fun h => by rw [if_pos h], fun h h2 => ?_, fun h h2 => ?_⟩
  · rw [if_neg h, if_neg (by simp [h2])]
  · rw [if_neg h, if_pos h2]

/-- Concrete instances of claim C7: a trailing-slash path, an extensionless
path, and a path with an extension. -/
theorem claim7_witness :
    normalizePath "/about/".data = "/about/index.html".data
    ∧ normalizePath "/about".data = "/about/index.html".data
    ∧ normalizePath "/app.css".data = "/app.css".data := by
  refine ⟨?_, ?_, ?_⟩
  · exact ((claim7_normalizePath_rule "/about/".data).1 (by decide)).trans (by decide)
  · exact ((claim7_normalizePath_rule "/about".data).2.1 (by decide) (by decide)).trans (by decide)
  · exact (claim7_normalizePath_rule "/app.css".data).2.2 (by decide) (by decide)

/-- Claim C8: normalizePath is idempotent. -/
theorem claim8_normalizePath_idem (p : Str) :
    normalizePath (normalizePath p) = normalizePath p := by
  by_cases h : p.getLast? = some '/'
  · obtain ⟨xs, rfl⟩ := exists_append_of_getLast p '/' h
    have h1 : normalizePath (xs ++ ['/']) = xs ++ '/' :: "index.html".data := by
      unfold normalizePath
      rw [if_pos h]
      simp
    rw [h1, normalizePath_fixed_append]
  · by_cases h2 : extname p = []
    · have h1 : normalizePath p = p ++ '/' :: "index.html".data := by
        unfold normalizePath
        rw [if_neg h, if_neg (by simp [h2])]
      rw [h1, normalizePath_fixed_append]
    · have h1 : normalizePath p = p := by
        unfold normalizePath
        rw [if_neg h, if_pos h2]
      rw [h1, h1]

/-! ## Manifest data model (builder.ts lines 17-79) -/

structure PodPathSha where
  path : Str
  sha : Str

deriving instance DecidableEq for PodPathSha

structure CommitAuthor where
  name : Str
  email : Str

deriving instance DecidableEq for CommitAuthor

structure Commit where
  sha : Str
  author : CommitAuthor
  message : Str

deriving instance DecidableEq for Commit

structure BuildManifest where
  branch : Option Str
  built : Str
  commit : Option Commit
  files : List PodPathSha

deriving instance DecidableEq for BuildManifest

structure BuildDiffPaths where
  adds : List Str
  edits : List Str
  noChanges : List Str
  deletes : List Str

deriving instance DecidableEq for BuildDiffPaths

structure ExportOptions where
  patterns : Option (List Str)

deriving instance DecidableEq for ExportOptions

/-! ## Builder.cleanOutputUsingManifests (builder.ts lines 234-282)

The JavaScript code builds plain object literals as path-to-sha maps by
`forEach` insertion (later entries overwrite earlier ones) and then probes
them with the `in` operator and reads them by indexing.  Both see the
prototype chain of a plain object: `toString` is `in` every plain object
literal, with the read producing the inherited function, and an assignment
to the key `__proto__` with a string value is a
silent no-op that creates no own property.  `objLookup` models the probe and
the read together: an own string property when one was assigned, the
inherited non-string Object.prototype member when the key is one of its
twelve property names, and absence otherwise. -/

/-- A value the `in`-guarded indexing read can produce: an own string
property, or an inherited Object.prototype member, which is never strictly
equal to a sha string. -/
inductive JsValue
  | str (s : Str)
  | protoFn

deriving instance DecidableEq for JsValue

/-- The property names of Object.prototype, all visible to the `in` operator
on a plain object literal. -/
def protoKeys : List Str :=
  ["constructor".data, "hasOwnProperty".data, "isPrototypeOf".data,
   "propertyIsEnumerable".data, "toLocaleString".data, "toString".data,
   "valueOf".data, "__proto__".data, "__defineGetter__".data,
   "__defineSetter__".data, "__lookupGetter__".data, "__lookupSetter__".data]

/-- The own string property assigned by the forEach insertions at lines
252-255 / 268-271: the sha of the last entry with the given path. -/
def recordLookup (files : List PodPathSha) (p : Str) : Option Str :=
  ((files.filter (fun f => decide (f.path = p))).getLast?).map PodPathSha.sha

/-- The combined `p in obj` probe and `obj[p]` read on the path-to-sha object:
assigning to __proto__ never creates an own property (the inherited accessor
remains, and reads produce a non-string); otherwise an assigned own property
wins; otherwise an Object.prototype member name is visible with a non-string
value; otherwise the key is absent. -/
def objLookup (files : List PodPathSha) (p : Str) : Option JsValue :=
  if p = "__proto__".data then some JsValue.protoFn
  else
    match recordLookup files p with
    | some s => some (JsValue.str s)
    | none => if p ∈ protoKeys then some JsValue.protoFn else none

/-- One step of the forEach at lines 256-266: classify one entry of the new
manifest as add, edit or noChange, appending its path to the matching list.
The membership test is the `in` operator and the comparison is a strict
equality between the sha string and whatever the indexing read produces. -/
def classifyFold (existingPathShas : Str → Option JsValue) (acc : BuildDiffPaths)
    (f : PodPathSha) : BuildDiffPaths :=
  match existingPathShas f.path with
  | some v =>
    if JsValue.str f.sha = v then { acc with noChanges := acc.noChanges ++ [f.path] }
    else { acc with edits := acc.edits ++ [f.path] }
  | none => { acc with adds := acc.adds ++ [f.path] }

/-- The forEach at lines 274-278: paths of the existing manifest whose `in`
probe on the new object fails. -/
def deletesFold (newPathShas : Str → Option JsValue) (files : List PodPathSha) : List Str :=
  files.foldl (fun ds f => if newPathShas f.path = none then ds ++ [f.path] else ds) []

/-- Builder.cleanOutputUsingManifests (lines 234-282).  With no existing
manifest everything is an add; otherwise the new manifest is classified
against the existing path-to-sha object, and deletes are collected only when
`options?.patterns` is not set (line 273). -/
def cleanOutputUsingManifests (existingManifest : Option BuildManifest)
    (newManifest : BuildManifest) (options : Option ExportOptions) : BuildDiffPaths :=
  match existingManifest with
  | none =>
    { adds := newManifest.files.map PodPathSha.path, edits := [], noChanges := [], deletes := [] }
  | some em =>
    let existingPathShas := objLookup em.files
    let d := newManifest.files.foldl (classifyFold existingPathShas) ⟨[], [], [], []⟩
    let newPathShas := objLookup newManifest.files
    if options.bind ExportOptions.patterns = none then
      { d with deletes := deletesFold newPathShas em.files }
    else d

/-- The paths of a manifest, in file order. -/
def manifestPaths (m : BuildManifest) : List Str :=
  m.files.map PodPathSha.path

/-- Entries classified as adds: path not seen by the `in` probe. -/
def addsFilter (look : Str → Option JsValue) (files : List PodPathSha) : List Str :=
  (files.filter (fun f => decide (look f.path = none))).map PodPathSha.path

/-- Entries classified as noChanges: probe succeeds and the read equals the
sha string. -/
def noChangesFilter (look : Str → Option JsValue) (files : List PodPathSha) : List Str :=
  (files.filter (fun f => decide (look f.path = some (JsValue.str f.sha)))).map PodPathSha.path

/-- Entries classified as edits: probe succeeds but the read differs from the
sha string. -/
def editsFilter (look : Str → Option JsValue) (files : List PodPathSha) : List Str :=
  (files.filter (fun f =>
    decide ((look f.path).isSome = true ∧ ¬ look f.path = some (JsValue.str f.sha)))).map
    PodPathSha.path

theorem classifyFold_foldl (look : Str → Option JsValue) (files : List PodPathSha) :
    ∀ acc : BuildDiffPaths,
      files.foldl (classifyFold look) acc
        = ⟨acc.adds ++ addsFilter look files,
           acc.edits ++ editsFilter look files,
           acc.noChanges ++ noChangesFilter look files,
           acc.deletes⟩ := by
  induction files with
  | nil =>
    intro acc
    simp [addsFilter, editsFilter, noChangesFilter]
  | cons f fs ih =>
    intro acc
    rw [List.foldl_cons, ih]
    unfold classifyFold
    rcases h : look f.path with _ | v
    · simp [addsFilter, editsFilter, noChangesFilter, List.filter_cons, h]
    · by_cases hs : JsValue.str f.sha = v
      · subst hs
        simp [addsFilter, editsFilter, noChangesFilter, List.filter_cons, h]
      · have hne : ¬ look f.path = some (JsValue.str f.sha) := by
          rw [h]
          intro hc
          exact hs (Option.some.inj hc).symm
        have hs2 : ¬ v = JsValue.str f.sha := fun hc => hs hc.symm
        simp [addsFilter, editsFilter, noChangesFilter, List.filter_cons, h, hs, hs2, hne]

theorem deletesFold_eq (look : Str → Option JsValue) (files : List PodPathSha) :
    deletesFold look files = addsFilter look files := by
  unfold deletesFold
  suffices h : ∀ acc : List Str,
      files.foldl (fun ds f => if look f.path = none then ds ++ [f.path] else ds) acc
        = acc ++ addsFilter look files by
    simpa using h []
  induction files with
  | nil => intro acc; simp [addsFilter]
  | cons f fs ih =>
    intro acc
    rw [List.foldl_cons]
    by_cases h : look f.path = none
    · rw [if_pos h, ih]
      simp [addsFilter, List.filter_cons, h]
    · rw [if_neg h, ih]
      simp [addsFilter, List.filter_cons, h]

theorem mem_addsFilter (look : Str → Option JsValue) (files : List PodPathSha) (p : Str) :
    p ∈ addsFilter look files ↔ p ∈ files.map PodPathSha.path ∧ look p = none := by
  unfold addsFilter
  simp only [List.mem_map, List.mem_filter, decide_eq_true_eq]
  constructor
  · rintro ⟨f, ⟨hf, hc⟩, rfl⟩
    exact ⟨⟨f, hf, rfl⟩, hc⟩
  · rintro ⟨⟨f, hf, rfl⟩, hc⟩
    exact ⟨f, ⟨hf, hc⟩, rfl⟩

theorem mem_noChangesFilter (look : Str → Option JsValue) (files : List PodPathSha) (p : Str) :
    p ∈ noChangesFilter look files
      ↔ ∃ s : Str, PodPathSha.mk p s ∈ files ∧ look p = some (JsValue.str s) := by
  unfold noChangesFilter
  simp only [List.mem_map, List.mem_filter, decide_eq_true_eq]
  constructor
  · rintro ⟨f, ⟨hf, hc⟩, rfl⟩
    refine ⟨f.sha, ?_, hc⟩
    cases f
    exact hf
  · rintro ⟨s, hf, hc⟩
    exact ⟨⟨p, s⟩, ⟨hf, hc⟩, rfl⟩

theorem mem_editsFilter (look : Str → Option JsValue) (files : List PodPathSha) (p : Str) :
    p ∈ editsFilter look files
      ↔ ∃ s : Str, PodPathSha.mk p s ∈ files ∧ (look p).isSome = true
          ∧ ¬ look p = some (JsValue.str s) := by
  unfold editsFilter
  simp only [List.mem_map, List.mem_filter, decide_eq_true_eq]
  constructor
  · rintro ⟨f, ⟨hf, hc1, hc2⟩, rfl⟩
    refine ⟨f.sha, ?_, hc1, hc2⟩
    cases f
    exact hf
  · rintro ⟨s, hf, hc1, hc2⟩
    exact ⟨⟨p, s⟩, ⟨hf, hc1, hc2⟩, rfl⟩

theorem recordLookup_eq_none (files : List PodPathSha) (p : Str) :
    recordLookup files p = none ↔ p ∉ files.map PodPathSha.path := by
  unfold recordLookup
  rw [Option.map_eq_none', List.getLast?_eq_none_iff, List.filter_eq_nil_iff]
  simp only [decide_eq_true_eq, List.mem_map]
  constructor
  · rintro h ⟨f, hf, rfl⟩
    exact h f hf rfl
  · rintro h f hf hc
    exact h ⟨f, hf, hc⟩

theorem recordLookup_eq_some_nodup (files : List PodPathSha) (p s : Str)
    (h : (files.map PodPathSha.path).Nodup) :
    recordLookup files p = some s ↔ PodPathSha.mk p s ∈ files := by
  induction files with
  | nil => simp [recordLookup]
  | cons f fs ih =>
    rw [List.map_cons, List.nodup_cons] at h
    obtain ⟨h1, h2⟩ := h
    by_cases hp : f.path = p
    · have hfilter : fs.filter (fun g => decide (g.path = p)) = [] := by
        rw [List.filter_eq_nil_iff]
        intro g hg hc
        rw [decide_eq_true_eq] at hc
        exact h1 (hp ▸ hc ▸ List.mem_map_of_mem PodPathSha.path hg)
      have hl : recordLookup (f :: fs) p = some f.sha := by
        unfold recordLookup
        rw [List.filter_cons, if_pos (by simpa using hp), hfilter]
        rfl
      rw [hl]
      subst hp
      constructor
      · intro hs
        have : PodPathSha.mk f.path s = f := by
          cases f
          simp at hs ⊢
          exact hs.symm
        rw [this]
        exact List.mem_cons_self f fs
      · intro hmem
        rcases List.mem_cons.mp hmem with heq | hin
        · cases f
          simp at heq ⊢
          exact heq.symm
        · exact absurd (List.mem_map_of_mem PodPathSha.path hin) (by simpa using h1)
    · have hl : recordLookup (f :: fs) p = recordLookup fs p := by
        unfold recordLookup
        rw [List.filter_cons, if_neg (by simpa using hp)]
      rw [hl, ih h2]
      constructor
      · exact fun hin => List.mem_cons_of_mem f hin
      · intro hmem
        rcases List.mem_cons.mp hmem with heq | hin
        · exact absurd (congrArg PodPathSha.path heq.symm) hp
        · exact hin

theorem pathSha_unique {files : List PodPathSha} (h : (files.map PodPathSha.path).Nodup)
    {p s t : Str} (hs : PodPathSha.mk p s ∈ files) (ht : PodPathSha.mk p t ∈ files) : s = t := by
  have h1 := (recordLookup_eq_some_nodup files p s h).mpr hs
  have h2 := (recordLookup_eq_some_nodup files p t h).mpr ht
  rw [h1] at h2
  exact Option.some.inj h2

theorem objLookup_not_proto (files : List PodPathSha) (p : Str) (hp : p ∉ protoKeys) :
    objLookup files p = (recordLookup files p).map JsValue.str := by
  unfold objLookup
  have hne : ¬ p = "__proto__".data := fun hc => hp (by rw [hc]; decide)
  rw [if_neg hne]
  rcases h : recordLookup files p with _ | s
  · rw [if_neg hp]
    rfl
  · rfl

theorem objLookup_eq_none (files : List PodPathSha) (p : Str) (hp : p ∉ protoKeys) :
    objLookup files p = none ↔ p ∉ files.map PodPathSha.path := by
  rw [objLookup_not_proto files p hp, Option.map_eq_none']
  exact recordLookup_eq_none files p

theorem objLookup_eq_str (files : List PodPathSha) (p s : Str) (hp : p ∉ protoKeys)
    (h : (files.map PodPathSha.path).Nodup) :
    objLookup files p = some (JsValue.str s) ↔ PodPathSha.mk p s ∈ files := by
  rw [objLookup_not_proto files p hp]
  rw [← recordLookup_eq_some_nodup files p s h]
  rcases hr : recordLookup files p with _ | t
  · simp
  · constructor
    · intro hc
      have h2 : JsValue.str t = JsValue.str s := Option.some.inj hc
      rw [JsValue.str.inj h2]
    · intro hc
      have h2 : t = s := Option.some.inj hc
      subst h2
      rfl

theorem objLookup_isSome_str (files : List PodPathSha) (p : Str) (hp : p ∉ protoKeys)
    (h : (objLookup files p).isSome = true) :
    ∃ t : Str, objLookup files p = some (JsValue.str t) := by
  rw [objLookup_not_proto files p hp] at h ⊢
  rcases hr : recordLookup files p with _ | t
  · rw [hr] at h
    simp at h
  · exact ⟨t, rfl⟩

theorem exists_sha_of_mem_paths {m : BuildManifest} {p : Str} (h : p ∈ manifestPaths m) :
    ∃ s : Str, PodPathSha.mk p s ∈ m.files := by
  rcases List.mem_map.mp h with ⟨f, hf, rfl⟩
  refine ⟨f.sha, ?_⟩
  cases f
  exact hf

theorem mem_paths_of_mem {m : BuildManifest} {p s : Str} (h : PodPathSha.mk p s ∈ m.files) :
    p ∈ manifestPaths m :=
  List.mem_map.mpr ⟨PodPathSha.mk p s, h, rfl⟩

theorem diff_some_components (P N : BuildManifest) (options : Option ExportOptions) :
    (cleanOutputUsingManifests (some P) N options).adds = addsFilter (objLookup P.files) N.files
    ∧ (cleanOutputUsingManifests (some P) N options).edits = editsFilter (objLookup P.files) N.files
    ∧ (cleanOutputUsingManifests (some P) N options).noChanges = noChangesFilter (objLookup P.files) N.files
    ∧ (cleanOutputUsingManifests (some P) N options).deletes
        = (if options.bind ExportOptions.patterns = none
           then addsFilter (objLookup N.files) P.files else []) := by
  have hrfl : cleanOutputUsingManifests (some P) N options
      = (if options.bind ExportOptions.patterns = none
         then { N.files.foldl (classifyFold (objLookup P.files)) ⟨[], [], [], []⟩ with
                deletes := deletesFold (objLookup N.files) P.files }
         else N.files.foldl (classifyFold (objLookup P.files)) ⟨[], [], [], []⟩) := rfl
  rw [hrfl, classifyFold_foldl]
  by_cases h : options.bind ExportOptions.patterns = none
  · simp [h, deletesFold_eq]
  · simp [h]

/-- Exactly one of four propositions holds. -/
def ExactlyOne (a b c d : Prop) : Prop :=
  (a ∧ ¬ b ∧ ¬ c ∧ ¬ d) ∨ (¬ a ∧ b ∧ ¬ c ∧ ¬ d) ∨ (¬ a ∧ ¬ b ∧ c ∧ ¬ d) ∨ (¬ a ∧ ¬ b ∧ ¬ c ∧ d)

/-- Claim C1 (amended): for a previous manifest P (possibly absent) and a new
manifest N with pairwise-distinct paths none of which is an Object.prototype
property name, the diff classifies exactly as specified: with P absent every
path of N is an add; otherwise a path of N absent from P is an add, present
with equal hash a noChange, present with a different hash an edit; in
non-incremental mode the deletes are exactly the paths of P absent from N,
and every path of P or N lands in exactly one of the four sets; in
incremental mode the deletes are empty.  The restriction is forced by the
`in` probes at lines 257 and 275 seeing the prototype chain. -/
theorem claim1_diff_classification (P N : BuildManifest) (options : Option ExportOptions)
    (hP : (manifestPaths P).Nodup) (hN : (manifestPaths N).Nodup)
    (hPp : ∀ p ∈ manifestPaths P, p ∉ protoKeys)
    (hNp : ∀ p ∈ manifestPaths N, p ∉ protoKeys) :
    cleanOutputUsingManifests none N options
        = { adds := manifestPaths N, edits := [], noChanges := [], deletes := [] }
    ∧ (∀ p : Str,
        (p ∈ (cleanOutputUsingManifests (some P) N options).adds
            ↔ p ∈ manifestPaths N ∧ p ∉ manifestPaths P)
        ∧ (p ∈ (cleanOutputUsingManifests (some P) N options).noChanges
            ↔ ∃ s : Str, PodPathSha.mk p s ∈ N.files ∧ PodPathSha.mk p s ∈ P.files)
        ∧ (p ∈ (cleanOutputUsingManifests (some P) N options).edits
            ↔ ∃ s t : Str, PodPathSha.mk p s ∈ N.files ∧ PodPathSha.mk p t ∈ P.files ∧ s ≠ t)
        ∧ (options.bind ExportOptions.patterns = none →
            (p ∈ (cleanOutputUsingManifests (some P) N options).deletes
              ↔ p ∈ manifestPaths P ∧ p ∉ manifestPaths N)))
    ∧ (options.bind ExportOptions.patterns ≠ none →
        (cleanOutputUsingManifests (some P) N options).deletes = [])
    ∧ (options.bind ExportOptions.patterns = none →
        ∀ p : Str, p ∈ manifestPaths P ∨ p ∈ manifestPaths N →
          ExactlyOne
            (p ∈ (cleanOutputUsingManifests (some P) N options).adds)
            (p ∈ (cleanOutputUsingManifests (some P) N options).edits)
            (p ∈ (cleanOutputUsingManifests (some P) N options).noChanges)
            (p ∈ (cleanOutputUsingManifests (some P) N options).deletes)) := by
  obtain ⟨hadds, hedits, hnoCh, hdels⟩ := diff_some_components P N options
  have memAdds : ∀ p : Str,
      p ∈ (cleanOutputUsingManifests (some P) N options).adds
        ↔ p ∈ manifestPaths N ∧ p ∉ manifestPaths P := by
    intro p
    rw [hadds, mem_addsFilter]
    by_cases hpN : p ∈ manifestPaths N
    · rw [objLookup_eq_none P.files p (hNp p hpN)]
      exact Iff.rfl
    · constructor
      · rintro ⟨h1, _⟩
        exact absurd h1 hpN
      · rintro ⟨h1, _⟩
        exact absurd h1 hpN
  have memNoCh : ∀ p : Str,
      p ∈ (cleanOutputUsingManifests (some P) N options).noChanges
        ↔ ∃ s : Str, PodPathSha.mk p s ∈ N.files ∧ PodPathSha.mk p s ∈ P.files := by
    intro p
    rw [hnoCh, mem_noChangesFilter]
    constructor
    · rintro ⟨s, hsN, hsP⟩
      exact ⟨s, hsN,
        (objLookup_eq_str P.files p s (hNp p (mem_paths_of_mem hsN)) hP).mp hsP⟩
    · rintro ⟨s, hsN, hsP⟩
      exact ⟨s, hsN,
        (objLookup_eq_str P.files p s (hNp p (mem_paths_of_mem hsN)) hP).mpr hsP⟩
  have memEdits : ∀ p : Str,
      p ∈ (cleanOutputUsingManifests (some P) N options).edits
        ↔ ∃ s t : Str, PodPathSha.mk p s ∈ N.files ∧ PodPathSha.mk p t ∈ P.files ∧ s ≠ t := by
    intro p
    rw [hedits, mem_editsFilter]
    constructor
    · rintro ⟨s, hsN, hsome, hne⟩
      have hp := hNp p (mem_paths_of_mem hsN)
      rcases objLookup_isSome_str P.files p hp hsome with ⟨t, ht⟩
      refine ⟨s, t, hsN, (objLookup_eq_str P.files p t hp hP).mp ht, ?_⟩
      intro he
      exact hne (he ▸ ht)
    · rintro ⟨s, t, hsN, htP, hne⟩
      have hp := hNp p (mem_paths_of_mem hsN)
      have ht := (objLookup_eq_str P.files p t hp hP).mpr htP
      refine ⟨s, hsN, by rw [ht]; rfl, ?_⟩
      rw [ht]
      intro hc
      exact hne (JsValue.str.inj (Option.some.inj hc)).symm
  have memDels : options.bind ExportOptions.patterns = none →
      ∀ p : Str, p ∈ (cleanOutputUsingManifests (some P) N options).deletes
        ↔ p ∈ manifestPaths P ∧ p ∉ manifestPaths N := by
    intro hopt p
    rw [hdels, if_pos hopt, mem_addsFilter]
    by_cases hpP : p ∈ manifestPaths P
    · rw [objLookup_eq_none N.files p (hPp p hpP)]
      exact Iff.rfl
    · constructor
      · rintro ⟨h1, _⟩
        exact absurd h1 hpP
      · rintro ⟨h1, _⟩
        exact absurd h1 hpP
  refine ⟨?_, fun p => ⟨memAdds p, memNoCh p, memEdits p, fun hopt => memDels hopt p⟩, ?_, ?_⟩
  · unfold cleanOutputUsingManifests
    rfl
  · intro hopt
    rw [hdels, if_neg hopt]
  · intro hopt p hp
    by_cases hpN : p ∈ manifestPaths N
    · by_cases hpP : p ∈ manifestPaths P
      · rcases exists_sha_of_mem_paths hpN with ⟨s, hsN⟩
        rcases exists_sha_of_mem_paths hpP with ⟨t, htP⟩
        by_cases hst : s = t
        · refine Or.inr (Or.inr (Or.inl ⟨?_, ?_, ?_, ?_⟩))
          · rw [memAdds p]
            rintro ⟨_, hc⟩
            exact hc hpP
          · rw [memEdits p]
            rintro ⟨u, v, huN, hvP, huv⟩
            have hu : u = s := pathSha_unique hN huN hsN
            have hv : v = t := pathSha_unique hP hvP htP
            exact huv (by rw [hu, hv, hst])
          · rw [memNoCh p]
            exact ⟨s, hsN, hst ▸ htP⟩
          · rw [memDels hopt p]
            rintro ⟨_, hc⟩
            exact hc hpN
        · refine Or.inr (Or.inl ⟨?_, ?_, ?_, ?_⟩)
          · rw [memAdds p]
            rintro ⟨_, hc⟩
            exact hc hpP
          · rw [memEdits p]
            exact ⟨s, t, hsN, htP, hst⟩
          · rw [memNoCh p]
            rintro ⟨u, huN, huP⟩
            have hu : u = s := pathSha_unique hN huN hsN
            have hv : u = t := pathSha_unique hP huP htP
            exact hst (hu ▸ hv)
          · rw [memDels hopt p]
            rintro ⟨_, hc⟩
            exact hc hpN
      · refine Or.inl ⟨?_, ?_, ?_, ?_⟩
        · rw [memAdds p]
          exact ⟨hpN, hpP⟩
        · rw [memEdits p]
          rintro ⟨_, t, _, htP, _⟩
          exact hpP (mem_paths_of_mem htP)
        · rw [memNoCh p]
          rintro ⟨s, _, hsP⟩
          exact hpP (mem_paths_of_mem hsP)
        · rw [memDels hopt p]
          rintro ⟨hc, _⟩
          exact hpP hc
    · by_cases hpP : p ∈ manifestPaths P
      · refine Or.inr (Or.inr (Or.inr ⟨?_, ?_, ?_, ?_⟩))
        · rw [memAdds p]
          rintro ⟨hc, _⟩
          exact hpN hc
        · rw [memEdits p]
          rintro ⟨s, _, hsN, _⟩
          exact hpN (mem_paths_of_mem hsN)
        · rw [memNoCh p]
          rintro ⟨s, hsN, _⟩
          exact hpN (mem_paths_of_mem hsN)
        · rw [memDels hopt p]
          exact ⟨hpP, hpN⟩
      · rcases hp with hc | hc
        · exact absurd hc hpP
        · exact absurd hc hpN

/-- Previous manifest used to instantiate claim C1 concretely. -/
def examplePrev : BuildManifest :=
  { branch := none, built := "t0".data, commit := none
  , files := [⟨"/a/index.html".data, "h1".data⟩, ⟨"/b/index.html".data, "h2".data⟩,
              ⟨"/c/index.html".data, "h3".data⟩] }

/-- New manifest used to instantiate claim C1 concretely. -/
def exampleNew : BuildManifest :=
  { branch := none, built := "t1".data, commit := none
  , files := [⟨"/a/index.html".data, "h1".data⟩, ⟨"/b/index.html".data, "h9".data⟩,
              ⟨"/d/index.html".data, "h4".data⟩] }

/-- Concrete instance of claim C1 (amended): with no previous manifest every
path of the new manifest is an add. -/
theorem claim1_witness :
    cleanOutputUsingManifests none exampleNew none
      = { adds := manifestPaths exampleNew, edits := [], noChanges := [], deletes := [] } :=
  (claim1_diff_classification examplePrev exampleNew none
    (by decide) (by decide) (by decide) (by decide)).1

/-- Previous manifest for the claim C1 counterexample: one ordinary path. -/
def protoPrev : BuildManifest :=
  { branch := none, built := "t0".data, commit := none
  , files := [⟨"/a/index.html".data, "h1".data⟩] }

/-- New manifest for the claim C1 counterexample: its only path is named like
an Object.prototype member. -/
def protoNew : BuildManifest :=
  { branch := none, built := "t1".data, commit := none
  , files := [⟨"toString".data, "h2".data⟩] }

/-- Counterexample to claim C1 as stated: both manifests have pairwise
distinct paths, yet the new-manifest path toString, absent from the previous
manifest, is classified as an edit rather than an add, because the `in`
probe at line 257 sees the inherited Object.prototype member; and with the
manifests swapped the previous-only path toString is never deleted (line 275)
and lands in none of the four sets, breaking the claimed partition. -/
theorem claim1_counterexample :
    (manifestPaths protoPrev).Nodup ∧ (manifestPaths protoNew).Nodup
    ∧ "toString".data ∈ manifestPaths protoNew
    ∧ "toString".data ∉ manifestPaths protoPrev
    ∧ "toString".data ∉ (cleanOutputUsingManifests (some protoPrev) protoNew none).adds
    ∧ "toString".data ∈ (cleanOutputUsingManifests (some protoPrev) protoNew none).edits
    ∧ "toString".data ∉ (cleanOutputUsingManifests (some protoNew) protoPrev none).adds
    ∧ "toString".data ∉ (cleanOutputUsingManifests (some protoNew) protoPrev none).edits
    ∧ "toString".data ∉ (cleanOutputUsingManifests (some protoNew) protoPrev none).noChanges
    ∧ "toString".data ∉ (cleanOutputUsingManifests (some protoNew) protoPrev none).deletes := by
  decide

/-! ## Export pipeline model (builder.ts lines 297-516)

`Builder.export` is embedded as a function from an environment (the pod state
and the outcomes of the external effects the builder awaits) to the ordered
trace of effect events it performs plus its result.  The sequential trace
models the await order of the source; the bounded-concurrency move phase
additionally gets an interleaving semantics below for the temporal claim.
File-system primitives are opaque: fsPath.join is modelled as concatenation
with a single separator, pod.getAbsoluteFilePath as joining with the pod
root, and minimatch as the abstract Boolean function `globMatch` of the
environment. -/

/-- Outcome of fs.unlinkSync on a path: success, failure with errno -2
(ENOENT, the file is already absent), or failure with any other error. -/
inductive UnlinkOutcome
  | ok
  | enoent
  | failWith (msg : Str)

deriving instance DecidableEq for UnlinkOutcome

/-- Effect events of one export run, in await order. -/
inductive BuildEv
  | trigger (hook : Str)
  | readManifest
  | mkdtemp
  | stageCopy (i : Nat)
  | stageWrite (i : Nat)
  | tick (i : Nat)
  | hashFile (i : Nat)
  | statFile (i : Nat)
  | moveFile (i : Nat)
  | removeTempDir
  | writeManifest
  | writeMetrics
  | computeDiff
  | unlinkOutput (path : Str)
  | warnUnlink (path : Str)
  | logSummary

deriving instance DecidableEq for BuildEv

/-- Errors that abort an export. -/
inductive BuildError
  | pluginError (hook : Str) (msg : Str)
  | noRoutes
  | routeError (i : Nat) (msg : Str)
  | unlinkError (path : Str) (msg : Str)

deriving instance DecidableEq for BuildError

/-- One route as the builder consumes it: its url path, source pod path,
provider type, the outcome of its copy-or-render staging action (lines
376-402), the content hash its staged file will produce, and its size. -/
structure RouteEnv where
  urlPath : Str
  podPath : Option Str
  providerType : Str
  stageResult : Except Str Unit
  sha : Str
  size : Nat

/-- Locale-to-missing-translation counts as produced by the loop at lines
472-483 (non-default locales with a nonzero recorded-string count). -/
structure ExportEnv where
  podRoot : Str
  tempDirRoot : Str
  now : Str
  memoryUsage : Nat
  missingTranslations : List (Str × Nat)
  existingManifest : Option BuildManifest
  routes : List RouteEnv
  beforeBuildResult : Except Str Unit
  afterBuildResult : Except Str Unit
  globMatch : Str → Str → Bool
  unlink : Str → UnlinkOutcome

structure BuildMetrics where
  memoryUsage : Nat
  localesToNumMissingTranslations : List (Str × Nat)
  numMissingTranslations : Nat
  numDocumentRoutes : Nat
  numStaticRoutes : Nat
  outputSizeDocuments : Nat
  outputSizeStaticFiles : Nat

deriving instance DecidableEq for BuildMetrics

structure BuildResult where
  metrics : BuildMetrics
  manifest : BuildManifest
  diff : BuildDiffPaths

deriving instance DecidableEq for BuildResult

/-- Builder.DefaultOutputDirectory (line 88). -/
def DefaultOutputDirectory : Str := "build".data

/-- Model of fsPath.join for two segments. -/
def joinPath (a b : Str) : Str := a ++ '/' :: b

/-- The replace of a single leading slash at lines 331-332. -/
def stripLeadingSlash : Str → Str
  | '/' :: rest => rest
  | p => p

/-- The route filter predicate at lines 326-338: the route has a truthy
podPath and some pattern matches it (both with leading slash stripped). -/
def routeMatchesPatterns (m : Str → Str → Bool) (ps : List Str) (r : RouteEnv) : Bool :=
  ps.any (fun pat =>
    match r.podPath with
    | some pp => !pp.isEmpty && m (stripLeadingSlash pp) (stripLeadingSlash pat)
    | none => false)

/-- Lines 325-339: routes are filtered only when options.patterns is set. -/
def filterRoutes (m : Str → Str → Bool) (patterns : Option (List Str))
    (routes : List RouteEnv) : List RouteEnv :=
  match patterns with
  | none => routes
  | some ps => routes.filter (routeMatchesPatterns m ps)

structure CreatedPath where
  route : RouteEnv
  tempPath : Str
  normalPath : Str
  realPath : Str

/-- Lines 353-369: per-route temporary and final paths. -/
def mkCreatedPath (env : ExportEnv) (r : RouteEnv) : CreatedPath :=
  let normalPath := normalizePath r.urlPath
  { route := r
  , tempPath := joinPath env.tempDirRoot (joinPath DefaultOutputDirectory normalPath)
  , normalPath := normalPath
  , realPath := joinPath env.podRoot (joinPath DefaultOutputDirectory normalPath) }

structure Artifact where
  tempPath : Str
  realPath : Str

deriving instance DecidableEq for Artifact

def artifactOf (cp : CreatedPath) : Artifact :=
  { tempPath := cp.tempPath, realPath := cp.realPath }

/-- The staging runner (async.eachLimit at lines 372-415), sequentialized in
start order with the first failing task stopping the run, as the awaited
eachLimit rejects with the first error.  The finally block (lines 403-413)
appends one artifact and one progress tick for each processed route whether
its action succeeded or raised; a successful static route emits a copy event
and any other successful route a write event. -/
def stageRoutes : List (Nat × CreatedPath) → List BuildEv × List Artifact × Except BuildError Unit
  | [] => ([], [], Except.ok ())
  | (i, cp) :: rest =>
    match cp.route.stageResult with
    | Except.ok _ =>
      let r := stageRoutes rest
      ((if cp.route.providerType = "staticDir".data then BuildEv.stageCopy i else BuildEv.stageWrite i)
          :: BuildEv.tick i :: r.1,
       artifactOf cp :: r.2.1, r.2.2)
    | Except.error msg =>
      ([BuildEv.tick i], [artifactOf cp], Except.error (BuildError.routeError i msg))

/-- One task body of the move phase (async.mapLimit at lines 432-461):
hash the staged file into the manifest, stat it into the metrics, then move
it to its final location. -/
def moveStep (acc : List BuildEv × List PodPathSha × BuildMetrics) (icp : Nat × CreatedPath) :
    List BuildEv × List PodPathSha × BuildMetrics :=
  let m := acc.2.2
  let m2 := if icp.2.route.providerType = "staticDir".data
    then { m with numStaticRoutes := m.numStaticRoutes + 1,
                  outputSizeStaticFiles := m.outputSizeStaticFiles + icp.2.route.size }
    else { m with numDocumentRoutes := m.numDocumentRoutes + 1,
                  outputSizeDocuments := m.outputSizeDocuments + icp.2.route.size }
  (acc.1 ++ [BuildEv.hashFile icp.1, BuildEv.statFile icp.1, BuildEv.moveFile icp.1],
   acc.2.1 ++ [⟨icp.2.normalPath, icp.2.route.sha⟩], m2)

/-- The metrics object initialised at lines 306-314. -/
def baseMetrics : BuildMetrics := ⟨0, [], 0, 0, 0, 0, 0⟩

def sumCounts (l : List (Str × Nat)) : Nat := l.foldl (fun a x => a + x.2) 0

def selectedRoutes (env : ExportEnv) (options : Option ExportOptions) : List RouteEnv :=
  filterRoutes env.globMatch (options.bind ExportOptions.patterns) env.routes

def createdPathsOf (env : ExportEnv) (options : Option ExportOptions) : List CreatedPath :=
  (selectedRoutes env options).map (mkCreatedPath env)

def stagedOf (env : ExportEnv) (options : Option ExportOptions) :
    List BuildEv × List Artifact × Except BuildError Unit :=
  stageRoutes (createdPathsOf env options).enum

def movedOf (env : ExportEnv) (options : Option ExportOptions) :
    List BuildEv × List PodPathSha × BuildMetrics :=
  (createdPathsOf env options).enum.foldl moveStep ([], [], baseMetrics)

/-- The manifest assembled at lines 300-305 and 437-440. -/
def manifestOf (env : ExportEnv) (options : Option ExportOptions) : BuildManifest :=
  { branch := none, built := env.now, commit := none, files := (movedOf env options).2.1 }

/-- The metrics after lines 441-449, 463 and 472-483. -/
def metricsOf (env : ExportEnv) (options : Option ExportOptions) : BuildMetrics :=
  { (movedOf env options).2.2 with
      memoryUsage := env.memoryUsage
    , localesToNumMissingTranslations := env.missingTranslations
    , numMissingTranslations := sumCounts env.missingTranslations }

/-- The diff computed at lines 497-501. -/
def diffOf (env : ExportEnv) (options : Option ExportOptions) : BuildDiffPaths :=
  cleanOutputUsingManifests env.existingManifest (manifestOf env options) options

/-- Lines 200-202: absolute final path of one output file. -/
def outputAbsPath (podRoot p : Str) : Str :=
  joinPath podRoot (joinPath DefaultOutputDirectory p)

/-- Builder.deleteOutputFiles (lines 197-224): unlink each path; an ENOENT
failure (errno -2) logs a warning and continues; any other failure is
rethrown, aborting the loop.  The empty-parent-directory sweep at lines
214-222 touches no output file and is not modelled. -/
def deleteOutputFiles (unlink : Str → UnlinkOutcome) (podRoot : Str) :
    List Str → List BuildEv × Except BuildError Unit
  | [] => ([], Except.ok ())
  | p :: rest =>
    match unlink (outputAbsPath podRoot p) with
    | UnlinkOutcome.ok =>
      let r := deleteOutputFiles unlink podRoot rest
      (BuildEv.unlinkOutput (outputAbsPath podRoot p) :: r.1, r.2)
    | UnlinkOutcome.enoent =>
      let r := deleteOutputFiles unlink podRoot rest
      (BuildEv.unlinkOutput (outputAbsPath podRoot p) :: BuildEv.warnUnlink (outputAbsPath podRoot p) :: r.1, r.2)
    | UnlinkOutcome.failWith msg =>
      ([BuildEv.unlinkOutput (outputAbsPath podRoot p)],
       Except.error (BuildError.unlinkError (outputAbsPath podRoot p) msg))

/-- Lines 503-507: stale files are deleted only outside incremental mode. -/
def delOf (env : ExportEnv) (options : Option ExportOptions) :
    List BuildEv × Except BuildError Unit :=
  if options.bind ExportOptions.patterns = none
  then deleteOutputFiles env.unlink env.podRoot (diffOf env options).deletes
  else ([], Except.ok ())

/-- Events before the route-count check: the beforeBuild trigger (line 298),
the existing-manifest read (line 299) and the temporary-directory creation
(line 318). -/
def preEvents : List BuildEv :=
  [BuildEv.trigger "beforeBuild".data, BuildEv.readManifest, BuildEv.mkdtemp]

/-- Events of a run that reaches the diff computation: staging, the move
phase, temp-tree removal (line 470), the manifest and metrics writes (lines
486-495), and the diff computation (line 497), in source order. -/
def mainEvents (env : ExportEnv) (options : Option ExportOptions) : List BuildEv :=
  preEvents ++ (stagedOf env options).1 ++ (movedOf env options).1
    ++ [BuildEv.removeTempDir, BuildEv.writeManifest, BuildEv.writeMetrics, BuildEv.computeDiff]

/-- The summary log (line 513) and the afterBuild trigger (line 514). -/
def tailEvents : List BuildEv := [BuildEv.logSummary, BuildEv.trigger "afterBuild".data]

/-- Builder.export (lines 297-516): trigger beforeBuild, read the previous
manifest, create the temp directory, filter routes, fail when none remain,
stage every route, then hash-stat-move, remove the temp tree, write manifest
and metrics, compute the diff, delete stale outputs outside incremental mode,
log, and trigger afterBuild. -/
def exportBuild (env : ExportEnv) (options : Option ExportOptions) :
    List BuildEv × Except BuildError BuildResult :=
  match env.beforeBuildResult with
  | Except.error msg =>
    ([BuildEv.trigger "beforeBuild".data],
     Except.error (BuildError.pluginError "beforeBuild".data msg))
  | Except.ok _ =>
    if (selectedRoutes env options).length = 0 then
      (preEvents, Except.error BuildError.noRoutes)
    else
      match (stagedOf env options).2.2 with
      | Except.error e => (preEvents ++ (stagedOf env options).1, Except.error e)
      | Except.ok _ =>
        match (delOf env options).2 with
        | Except.error e => (mainEvents env options ++ (delOf env options).1, Except.error e)
        | Except.ok _ =>
          match env.afterBuildResult with
          | Except.error msg =>
            (mainEvents env options ++ (delOf env options).1 ++ tailEvents,
             Except.error (BuildError.pluginError "afterBuild".data msg))
          | Except.ok _ =>
            (mainEvents env options ++ (delOf env options).1 ++ tailEvents,
             Except.ok ⟨metricsOf env options, manifestOf env options, diffOf env options⟩)

/-! ### Event classifiers -/

def isStagePhaseEv : BuildEv → Bool
  | BuildEv.stageCopy _ => true
  | BuildEv.stageWrite _ => true
  | BuildEv.tick _ => true
  | _ => false

def isMovePhaseEv : BuildEv → Bool
  | BuildEv.hashFile _ => true
  | BuildEv.statFile _ => true
  | BuildEv.moveFile _ => true
  | _ => false

def isUnlinkEv : BuildEv → Bool
  | BuildEv.unlinkOutput _ => true
  | _ => false

def isWarnEv : BuildEv → Bool
  | BuildEv.warnUnlink _ => true
  | _ => false

def isDeletePhaseEv : BuildEv → Bool
  | BuildEv.unlinkOutput _ => true
  | BuildEv.warnUnlink _ => true
  | _ => false

def isTickEv : BuildEv → Bool
  | BuildEv.tick _ => true
  | _ => false

def isMoveFileEv : BuildEv → Bool
  | BuildEv.moveFile _ => true
  | _ => false

def isManifestWriteEv : BuildEv → Bool
  | BuildEv.writeManifest => true
  | BuildEv.writeMetrics => true
  | _ => false

/-- Errors raised before the manifest and metrics writes at lines 486-495:
a beforeBuild plugin failure, the empty-route-set error, or a staging
failure. -/
def isPreWriteError : BuildError → Bool
  | BuildError.pluginError h _ => decide (h = "beforeBuild".data)
  | BuildError.noRoutes => true
  | BuildError.routeError _ _ => true
  | BuildError.unlinkError _ _ => false

/-! ### Trace structure lemmas -/

theorem stageRoutes_cons_ok {cp : CreatedPath} (i : Nat) (rest : List (Nat × CreatedPath))
    {u : Unit} (h : cp.route.stageResult = Except.ok u) :
    stageRoutes ((i, cp) :: rest)
      = ((if cp.route.providerType = "staticDir".data
          then BuildEv.stageCopy i else BuildEv.stageWrite i)
            :: BuildEv.tick i :: (stageRoutes rest).1,
         artifactOf cp :: (stageRoutes rest).2.1, (stageRoutes rest).2.2) := by
  conv_lhs => unfold stageRoutes
  rw [h]

theorem stageRoutes_cons_err {cp : CreatedPath} (i : Nat) (rest : List (Nat × CreatedPath))
    {msg : Str} (h : cp.route.stageResult = Except.error msg) :
    stageRoutes ((i, cp) :: rest)
      = ([BuildEv.tick i], [artifactOf cp], Except.error (BuildError.routeError i msg)) := by
  conv_lhs => unfold stageRoutes
  rw [h]

theorem stageRoutes_events (l : List (Nat × CreatedPath)) :
    ∀ e ∈ (stageRoutes l).1, isStagePhaseEv e = true := by
  induction l with
  | nil =>
    intro e he
    simp [stageRoutes] at he
  | cons icp rest ih =>
    obtain ⟨i, cp⟩ := icp
    intro e he
    rcases h : cp.route.stageResult with msg | u
    · rw [stageRoutes_cons_err i rest h] at he
      simp only [List.mem_singleton] at he
      subst he
      rfl
    · rw [stageRoutes_cons_ok i rest h] at he
      simp only [List.mem_cons] at he
      rcases he with rfl | rfl | he3
      · by_cases hp : cp.route.providerType = "staticDir".data <;> simp [hp, isStagePhaseEv]
      · rfl
      · exact ih e he3

theorem moveFold_events (l : List (Nat × CreatedPath)) :
    ∀ acc : List BuildEv × List PodPathSha × BuildMetrics,
      ∀ e ∈ (l.foldl moveStep acc).1, e ∈ acc.1 ∨ isMovePhaseEv e = true := by
  induction l with
  | nil =>
    intro acc e he
    exact Or.inl he
  | cons icp rest ih =>
    intro acc e he
    rw [List.foldl_cons] at he
    rcases ih (moveStep acc icp) e he with hin | hmv
    · have hin2 : e ∈ acc.1 ++ [BuildEv.hashFile icp.1, BuildEv.statFile icp.1, BuildEv.moveFile icp.1] := hin
      rcases List.mem_append.mp hin2 with h1 | h2
      · exact Or.inl h1
      · simp only [List.mem_cons, List.not_mem_nil, or_false] at h2
        rcases h2 with rfl | rfl | rfl <;> exact Or.inr rfl
    · exact Or.inr hmv

theorem deleteOutputFiles_cons_ok {unlink : Str → UnlinkOutcome} {podRoot p : Str}
    (rest : List Str) (h : unlink (outputAbsPath podRoot p) = UnlinkOutcome.ok) :
    deleteOutputFiles unlink podRoot (p :: rest)
      = (BuildEv.unlinkOutput (outputAbsPath podRoot p) :: (deleteOutputFiles unlink podRoot rest).1,
         (deleteOutputFiles unlink podRoot rest).2) := by
  conv_lhs => unfold deleteOutputFiles
  rw [h]

theorem deleteOutputFiles_cons_enoent {unlink : Str → UnlinkOutcome} {podRoot p : Str}
    (rest : List Str) (h : unlink (outputAbsPath podRoot p) = UnlinkOutcome.enoent) :
    deleteOutputFiles unlink podRoot (p :: rest)
      = (BuildEv.unlinkOutput (outputAbsPath podRoot p)
           :: BuildEv.warnUnlink (outputAbsPath podRoot p)
           :: (deleteOutputFiles unlink podRoot rest).1,
         (deleteOutputFiles unlink podRoot rest).2) := by
  conv_lhs => unfold deleteOutputFiles
  rw [h]

theorem deleteOutputFiles_cons_fail {unlink : Str → UnlinkOutcome} {podRoot p : Str}
    (rest : List Str) {msg : Str}
    (h : unlink (outputAbsPath podRoot p) = UnlinkOutcome.failWith msg) :
    deleteOutputFiles unlink podRoot (p :: rest)
      = ([BuildEv.unlinkOutput (outputAbsPath podRoot p)],
         Except.error (BuildError.unlinkError (outputAbsPath podRoot p) msg)) := by
  conv_lhs => unfold deleteOutputFiles
  rw [h]

theorem deleteOutputFiles_events (unlink : Str → UnlinkOutcome) (podRoot : Str)
    (paths : List Str) :
    ∀ e ∈ (deleteOutputFiles unlink podRoot paths).1, isDeletePhaseEv e = true := by
  induction paths with
  | nil =>
    intro e he
    simp [deleteOutputFiles] at he
  | cons p rest ih =>
    intro e he
    rcases h : unlink (outputAbsPath podRoot p) with _ | _ | msg
    · rw [deleteOutputFiles_cons_ok rest h] at he
      rcases List.mem_cons.mp he with rfl | he2
      · rfl
      · exact ih e he2
    · rw [deleteOutputFiles_cons_enoent rest h] at he
      rcases List.mem_cons.mp he with rfl | he2
      · rfl
      · rcases List.mem_cons.mp he2 with rfl | he3
        · rfl
        · exact ih e he3
    · rw [deleteOutputFiles_cons_fail rest h] at he
      simp only [List.mem_singleton] at he
      subst he
      rfl

theorem deleteOutputFiles_error_form (unlink : Str → UnlinkOutcome) (podRoot : Str)
    (paths : List Str) (e : BuildError)
    (h : (deleteOutputFiles unlink podRoot paths).2 = Except.error e) :
    ∃ p m, e = BuildError.unlinkError p m := by
  induction paths with
  | nil => simp [deleteOutputFiles] at h
  | cons p rest ih =>
    rcases ho : unlink (outputAbsPath podRoot p) with _ | _ | msg
    · rw [deleteOutputFiles_cons_ok rest ho] at h
      exact ih h
    · rw [deleteOutputFiles_cons_enoent rest ho] at h
      exact ih h
    · rw [deleteOutputFiles_cons_fail rest ho] at h
      exact ⟨_, _, (Except.error.inj h).symm⟩

theorem delOf_error_form (env : ExportEnv) (options : Option ExportOptions) (e : BuildError)
    (h : (delOf env options).2 = Except.error e) : ∃ p m, e = BuildError.unlinkError p m := by
  unfold delOf at h
  by_cases hopt : options.bind ExportOptions.patterns = none
  · rw [if_pos hopt] at h
    exact deleteOutputFiles_error_form _ _ _ _ h
  · rw [if_neg hopt] at h
    cases h

theorem delOf_events (env : ExportEnv) (options : Option ExportOptions) :
    ∀ e ∈ (delOf env options).1, isDeletePhaseEv e = true := by
  unfold delOf
  by_cases hopt : options.bind ExportOptions.patterns = none
  · rw [if_pos hopt]
    exact deleteOutputFiles_events _ _ _
  · rw [if_neg hopt]
    intro e he
    cases he

theorem delOf_incremental (env : ExportEnv) (ps : List Str) :
    delOf env (some ⟨some ps⟩) = ([], Except.ok ()) := by
  unfold delOf
  rw [if_neg (by simp [Option.bind])]

theorem cleanOutput_deletes_incremental (em : Option BuildManifest) (nm : BuildManifest)
    (ps : List Str) :
    (cleanOutputUsingManifests em nm (some ⟨some ps⟩)).deletes = [] := by
  cases em with
  | none => rfl
  | some P =>
    have h := (diff_some_components P nm (some ⟨some ps⟩)).2.2.2
    rw [h, if_neg (by simp [Option.bind])]

/-! ### Event kind facts -/

theorem stage_ev_kinds (e : BuildEv) (h : isStagePhaseEv e = true) :
    isUnlinkEv e = false ∧ isMovePhaseEv e = false ∧ isManifestWriteEv e = false
      ∧ isMoveFileEv e = false ∧ e ≠ BuildEv.computeDiff := by
  cases e <;>
    simp [isStagePhaseEv, isUnlinkEv, isMovePhaseEv, isManifestWriteEv, isMoveFileEv] at h ⊢

theorem move_ev_kinds (e : BuildEv) (h : isMovePhaseEv e = true) :
    isUnlinkEv e = false ∧ isManifestWriteEv e = false ∧ e ≠ BuildEv.computeDiff := by
  cases e <;>
    simp [isMovePhaseEv, isUnlinkEv, isManifestWriteEv] at h ⊢

theorem delete_ev_kinds (e : BuildEv) (h : isDeletePhaseEv e = true) :
    isManifestWriteEv e = false ∧ isMoveFileEv e = false ∧ e ≠ BuildEv.computeDiff := by
  cases e <;>
    simp [isDeletePhaseEv, isManifestWriteEv, isMoveFileEv] at h ⊢

theorem not_mem_of_kind {P : BuildEv → Bool} {l : List BuildEv} (h : ∀ e ∈ l, P e = true)
    {x : BuildEv} (hx : P x = false) : x ∉ l := by
  intro hm
  rw [h x hm] at hx
  cases hx

/-! ### Shape of an export run -/

theorem exportBuild_shape (env : ExportEnv) (options : Option ExportOptions) :
    (∃ msg, env.beforeBuildResult = Except.error msg ∧
       exportBuild env options
         = ([BuildEv.trigger "beforeBuild".data],
            Except.error (BuildError.pluginError "beforeBuild".data msg)))
    ∨ (env.beforeBuildResult = Except.ok () ∧ (selectedRoutes env options).length = 0 ∧
       exportBuild env options = (preEvents, Except.error BuildError.noRoutes))
    ∨ (∃ e, env.beforeBuildResult = Except.ok () ∧ (selectedRoutes env options).length ≠ 0 ∧
       (stagedOf env options).2.2 = Except.error e ∧
       exportBuild env options = (preEvents ++ (stagedOf env options).1, Except.error e))
    ∨ (∃ e, env.beforeBuildResult = Except.ok () ∧ (selectedRoutes env options).length ≠ 0 ∧
       (stagedOf env options).2.2 = Except.ok () ∧ (delOf env options).2 = Except.error e ∧
       exportBuild env options = (mainEvents env options ++ (delOf env options).1, Except.error e))
    ∨ (∃ msg, env.beforeBuildResult = Except.ok () ∧ (selectedRoutes env options).length ≠ 0 ∧
       (stagedOf env options).2.2 = Except.ok () ∧ (delOf env options).2 = Except.ok () ∧
       env.afterBuildResult = Except.error msg ∧
       exportBuild env options
         = (mainEvents env options ++ (delOf env options).1 ++ tailEvents,
            Except.error (BuildError.pluginError "afterBuild".data msg)))
    ∨ (env.beforeBuildResult = Except.ok () ∧ (selectedRoutes env options).length ≠ 0 ∧
       (stagedOf env options).2.2 = Except.ok () ∧ (delOf env options).2 = Except.ok () ∧
       env.afterBuildResult = Except.ok () ∧
       exportBuild env options
         = (mainEvents env options ++ (delOf env options).1 ++ tailEvents,
            Except.ok ⟨metricsOf env options, manifestOf env options, diffOf env options⟩)) := by
  unfold exportBuild
  rcases hb : env.beforeBuildResult with msg | u
  · exact Or.inl ⟨msg, rfl, rfl⟩
  · by_cases hlen : (selectedRoutes env options).length = 0
    · refine Or.inr (Or.inl ⟨rfl, hlen, ?_⟩)
      rw [if_pos hlen]
    · rcases hs : (stagedOf env options).2.2 with e | u2
      · refine Or.inr (Or.inr (Or.inl ⟨e, rfl, hlen, rfl, ?_⟩))
        rw [if_neg hlen]
      · rcases hd : (delOf env options).2 with e | u3
        · refine Or.inr (Or.inr (Or.inr (Or.inl ⟨e, rfl, hlen, rfl, rfl, ?_⟩)))
          rw [if_neg hlen]
        · rcases ha : env.afterBuildResult with msg | u4
          · refine Or.inr (Or.inr (Or.inr (Or.inr (Or.inl ⟨msg, rfl, hlen, rfl, rfl, rfl, ?_⟩))))
            rw [if_neg hlen]
          · refine Or.inr (Or.inr (Or.inr (Or.inr (Or.inr ⟨rfl, hlen, rfl, rfl, rfl, ?_⟩))))
            rw [if_neg hlen]

/-- Helper: an export with an empty selected route list fails with the
empty-route-set error, leaving only the pre-check trace. -/
theorem export_noRoutes_eq (env : ExportEnv) (options : Option ExportOptions)
    (hb : env.beforeBuildResult = Except.ok ())
    (hr : (selectedRoutes env options).length = 0) :
    exportBuild env options = (preEvents, Except.error BuildError.noRoutes) := by
  rcases exportBuild_shape env options with ⟨msg, h1, _⟩ | ⟨_, _, h⟩ | ⟨e, _, hlen, _⟩
    | ⟨e, _, hlen, _⟩ | ⟨msg, _, hlen, _⟩ | ⟨_, hlen, _⟩
  · rw [hb] at h1
    cases h1
  · exact h
  all_goals exact absurd hr hlen

/-! ### Event kind tables for the fixed blocks -/

theorem preEvents_kinds : ∀ e ∈ preEvents, isStagePhaseEv e = false ∧ isMovePhaseEv e = false
    ∧ isManifestWriteEv e = false ∧ isDeletePhaseEv e = false ∧ isUnlinkEv e = false
    ∧ isMoveFileEv e = false ∧ e ≠ BuildEv.computeDiff := by decide

theorem tailEvents_kinds : ∀ e ∈ tailEvents, isUnlinkEv e = false ∧ isManifestWriteEv e = false
    ∧ isMoveFileEv e = false ∧ e ≠ BuildEv.computeDiff := by decide

theorem midEvents_kinds :
    ∀ e ∈ [BuildEv.removeTempDir, BuildEv.writeManifest, BuildEv.writeMetrics],
      isUnlinkEv e = false ∧ isMoveFileEv e = false ∧ e ≠ BuildEv.computeDiff := by decide

theorem mainEvents_no_unlink (env : ExportEnv) (options : Option ExportOptions) :
    ∀ e ∈ mainEvents env options, isUnlinkEv e = false := by
  intro e he
  unfold mainEvents at he
  rcases List.mem_append.mp he with h1 | h2
  · rcases List.mem_append.mp h1 with h3 | h4
    · rcases List.mem_append.mp h3 with h5 | h6
      · exact (preEvents_kinds e h5).2.2.2.2.1
      · exact (stage_ev_kinds e (stageRoutes_events _ e h6)).1
    · rcases moveFold_events _ _ e h4 with hin | hmv
      · exact absurd hin (List.not_mem_nil e)
      · exact (move_ev_kinds e hmv).1
  · rcases List.mem_cons.mp h2 with rfl | h2b
    · rfl
    · rcases List.mem_cons.mp h2b with rfl | h2c
      · rfl
      · rcases List.mem_cons.mp h2c with rfl | h2d
        · rfl
        · rcases List.mem_cons.mp h2d with rfl | h2e
          · rfl
          · exact absurd h2e (List.not_mem_nil e)

theorem computeDiff_not_mem_head (env : ExportEnv) (options : Option ExportOptions) :
    BuildEv.computeDiff ∉ preEvents ++ (stagedOf env options).1 ++ (movedOf env options).1
      ++ [BuildEv.removeTempDir, BuildEv.writeManifest, BuildEv.writeMetrics] := by
  intro h
  rcases List.mem_append.mp h with h1 | h2
  · rcases List.mem_append.mp h1 with h3 | h4
    · rcases List.mem_append.mp h3 with h5 | h6
      · exact (preEvents_kinds _ h5).2.2.2.2.2.2 rfl
      · exact (stage_ev_kinds _ (stageRoutes_events _ _ h6)).2.2.2.2 rfl
    · rcases moveFold_events _ _ _ h4 with hin | hmv
      · exact absurd hin (List.not_mem_nil _)
      · exact (move_ev_kinds _ hmv).2.2 rfl
  · exact (midEvents_kinds _ h2).2.2 rfl

theorem tail_block_manifest_free (env : ExportEnv) (options : Option ExportOptions) :
    ∀ ev ∈ (delOf env options).1 ++ tailEvents,
      isManifestWriteEv ev = false ∧ ev ≠ BuildEv.computeDiff := by
  intro ev hev
  rcases List.mem_append.mp hev with h | h
  · have hk := delOf_events env options ev h
    exact ⟨(delete_ev_kinds ev hk).1, (delete_ev_kinds ev hk).2.2⟩
  · exact ⟨(tailEvents_kinds ev h).2.1, (tailEvents_kinds ev h).2.2.2⟩

theorem del_block_manifest_free (env : ExportEnv) (options : Option ExportOptions) :
    ∀ ev ∈ (delOf env options).1,
      isManifestWriteEv ev = false ∧ ev ≠ BuildEv.computeDiff := by
  intro ev hev
  have hk := delOf_events env options ev hev
  exact ⟨(delete_ev_kinds ev hk).1, (delete_ev_kinds ev hk).2.2⟩

theorem mainEvents_append (env : ExportEnv) (options : Option ExportOptions) (X : List BuildEv) :
    mainEvents env options ++ X
      = (preEvents ++ (stagedOf env options).1 ++ (movedOf env options).1
          ++ [BuildEv.removeTempDir, BuildEv.writeManifest, BuildEv.writeMetrics])
        ++ BuildEv.computeDiff :: X := by
  unfold mainEvents
  simp [List.append_assoc]

/-! ### Split lemmas -/

theorem unique_split {α : Type} {c : α} :
    ∀ (A : List α) {B l1 l2 : List α}, c ∉ A → c ∉ B → A ++ c :: B = l1 ++ c :: l2 → l2 = B := by
  intro A
  induction A with
  | nil =>
    intro B l1 l2 _ hB h
    cases l1 with
    | nil =>
      simp only [List.nil_append, List.cons.injEq, true_and] at h
      exact h.symm
    | cons x xs =>
      simp only [List.nil_append, List.cons_append, List.cons.injEq] at h
      obtain ⟨h1, h2⟩ := h
      exact absurd (by rw [h2]; exact List.mem_append_right xs (List.mem_cons_self c l2)) hB
  | cons a A ih =>
    intro B l1 l2 hA hB h
    cases l1 with
    | nil =>
      simp only [List.cons_append, List.nil_append, List.cons.injEq] at h
      obtain ⟨h1, h2⟩ := h
      rw [← h1] at hA
      exact absurd (List.mem_cons_self a A) hA
    | cons x xs =>
      simp only [List.cons_append, List.cons.injEq] at h
      exact ih (fun hm => hA (List.mem_cons_of_mem a hm)) hB h.2

theorem pair_sublist_split {α : Type} {a b : α} {l : List α} (h : [a, b].Sublist l) :
    ∃ l1 l2 l3, l = l1 ++ a :: l2 ++ b :: l3 := by
  induction l with
  | nil => cases h
  | cons x xs ih =>
    cases h with
    | cons _ h2 =>
      obtain ⟨l1, l2, l3, rfl⟩ := ih h2
      exact ⟨x :: l1, l2, l3, rfl⟩
    | cons₂ _ h2 =>
      obtain ⟨s, t, rfl⟩ := List.append_of_mem (List.singleton_sublist.mp h2)
      exact ⟨[], s, t, rfl⟩

/-! ### Concrete environments for witnesses and counterexamples -/

/-- A route whose staging action succeeds. -/
def routeOkA : RouteEnv :=
  { urlPath := "/a/".data, podPath := some "/content/a.md".data, providerType := "doc".data
  , stageResult := Except.ok (), sha := "sha-a".data, size := 5 }

/-- A route whose render action raises. -/
def routeFailB : RouteEnv :=
  { urlPath := "/b/".data, podPath := some "/content/b.md".data, providerType := "doc".data
  , stageResult := Except.error "render failed".data, sha := "sha-b".data, size := 0 }

/-- A pod with one successfully building route and no previous manifest. -/
def envBase : ExportEnv :=
  { podRoot := "/site".data, tempDirRoot := "/tmp/amagaki-build-x".data, now := "now".data
  , memoryUsage := 0, missingTranslations := [], existingManifest := none
  , routes := [routeOkA], beforeBuildResult := Except.ok (), afterBuildResult := Except.ok ()
  , globMatch := fun _ _ => true, unlink := fun _ => UnlinkOutcome.ok }

def envNoRoutes : ExportEnv := { envBase with routes := [] }

def envRouteFail : ExportEnv := { envBase with routes := [routeFailB] }

/-- A previously built manifest containing a path the new build no longer
produces. -/
def staleManifest : BuildManifest :=
  { branch := none, built := "t0".data, commit := none
  , files := [⟨"/gone/index.html".data, "h9".data⟩] }

/-- A pod whose stale-output deletion fails with a non-ENOENT error. -/
def envUnlinkFail : ExportEnv :=
  { envBase with
      existingManifest := some staleManifest,
      unlink := fun _ => UnlinkOutcome.failWith "EACCES".data }

/-- An unlink that always fails with an error other than ENOENT. -/
def unlinkDenied : Str → UnlinkOutcome := fun _ => UnlinkOutcome.failWith "EACCES".data

/-- An unlink that always fails with ENOENT (file already absent). -/
def unlinkMissing : Str → UnlinkOutcome := fun _ => UnlinkOutcome.enoent

def isFailOutcome : UnlinkOutcome → Bool
  | UnlinkOutcome.failWith _ => true
  | _ => false

/-! ### Claim C2 -/

/-- Claim C2: whenever options.patterns is set to a non-empty list of
patterns, the returned diff has an empty deletes set and the export trace
contains no unlink of an output file. -/
theorem claim2_incremental_no_deletes (env : ExportEnv) (ps : List Str) (hps : ps ≠ []) :
    (∀ e ∈ (exportBuild env (some ⟨some ps⟩)).1, isUnlinkEv e = false)
    ∧ (∀ r : BuildResult,
        (exportBuild env (some ⟨some ps⟩)).2 = Except.ok r → r.diff.deletes = []) := by
  have hdel : delOf env (some ⟨some ps⟩) = ([], Except.ok ()) := delOf_incremental env ps
  rcases exportBuild_shape env (some ⟨some ps⟩) with
      ⟨msg, _, hexp⟩ | ⟨_, _, hexp⟩ | ⟨e0, _, _, _, hexp⟩ | ⟨e0, _, _, _, _, hexp⟩
    | ⟨msg, _, _, _, _, _, hexp⟩ | ⟨_, _, _, _, _, hexp⟩ <;> rw [hexp] <;> constructor
  · intro e he
    simp only [List.mem_singleton] at he
    subst he
    rfl
  · intro r hr
    simp at hr
  · intro e he
    exact (preEvents_kinds e he).2.2.2.2.1
  · intro r hr
    simp at hr
  · intro e he
    rcases List.mem_append.mp he with h | h
    · exact (preEvents_kinds e h).2.2.2.2.1
    · exact (stage_ev_kinds e (stageRoutes_events _ e h)).1
  · intro r hr
    simp at hr
  · intro e he
    rw [hdel] at he
    rcases List.mem_append.mp he with h | h
    · exact mainEvents_no_unlink env _ e h
    · exact absurd h (List.not_mem_nil e)
  · intro r hr
    simp at hr
  · intro e he
    rw [hdel] at he
    rcases List.mem_append.mp he with h | h
    · rcases List.mem_append.mp h with h2 | h2
      · exact mainEvents_no_unlink env _ e h2
      · exact absurd h2 (List.not_mem_nil e)
    · exact (tailEvents_kinds e h).1
  · intro r hr
    simp at hr
  · intro e he
    rw [hdel] at he
    rcases List.mem_append.mp he with h | h
    · rcases List.mem_append.mp h with h2 | h2
      · exact mainEvents_no_unlink env _ e h2
      · exact absurd h2 (List.not_mem_nil e)
    · exact (tailEvents_kinds e h).1
  · intro r hr
    have hr2 := Except.ok.inj hr
    rw [← hr2]
    exact cleanOutput_deletes_incremental env.existingManifest (manifestOf env (some ⟨some ps⟩)) ps

/-- Concrete instance of claim C2, with patterns set to a non-empty list. -/
theorem claim2_witness :
    (∀ e ∈ (exportBuild envBase (some ⟨some ["**".data]⟩)).1, isUnlinkEv e = false)
    ∧ (∀ r : BuildResult,
        (exportBuild envBase (some ⟨some ["**".data]⟩)).2 = Except.ok r → r.diff.deletes = []) :=
  claim2_incremental_no_deletes envBase ["**".data] (by decide)

/-! ### Claim C3 -/

/-- Counterexample to claim C3 as stated: a deletion that fails for a reason
other than the file being absent is not recovered with a warning; it aborts
the cleanup with an error. -/
theorem claim3_counterexample :
    (deleteOutputFiles unlinkDenied "/site".data ["/a/index.html".data]).2
      = Except.error
          (BuildError.unlinkError "/site/build//a/index.html".data "EACCES".data) := by
  rfl

/-- Claim C3 (amended): during stale-output cleanup, a deletion failing with
ENOENT (file already absent) logs a warning and the cleanup continues, while
a deletion failing for any other reason propagates and aborts the export; if
no deletion fails with a non-ENOENT error the cleanup succeeds and warns
exactly on the ENOENT paths. -/
theorem claim3_delete_error_handling (unlink : Str → UnlinkOutcome) (podRoot : Str)
    (paths : List Str) :
    ((∀ p ∈ paths, isFailOutcome (unlink (outputAbsPath podRoot p)) = false) →
       (deleteOutputFiles unlink podRoot paths).2 = Except.ok ()
       ∧ ((deleteOutputFiles unlink podRoot paths).1.filter isWarnEv)
           = (paths.filter
               (fun p => decide (unlink (outputAbsPath podRoot p) = UnlinkOutcome.enoent))).map
               (fun p => BuildEv.warnUnlink (outputAbsPath podRoot p)))
    ∧ (∀ (l1 : List Str) (p : Str) (l2 : List Str) (msg : Str),
        paths = l1 ++ p :: l2 →
        (∀ q ∈ l1, isFailOutcome (unlink (outputAbsPath podRoot q)) = false) →
        unlink (outputAbsPath podRoot p) = UnlinkOutcome.failWith msg →
        (deleteOutputFiles unlink podRoot paths).2
          = Except.error (BuildError.unlinkError (outputAbsPath podRoot p) msg)) := by
  constructor
  · intro hnf
    induction paths with
    | nil => exact ⟨rfl, rfl⟩
    | cons p rest ih =>
      have hnf2 : ∀ q ∈ rest, isFailOutcome (unlink (outputAbsPath podRoot q)) = false :=
        fun q hq => hnf q (List.mem_cons_of_mem p hq)
      obtain ⟨ih1, ih2⟩ := ih hnf2
      rcases ho : unlink (outputAbsPath podRoot p) with _ | _ | msg
      · rw [deleteOutputFiles_cons_ok rest ho]
        refine ⟨ih1, ?_⟩
        simp [List.filter_cons, ho, isWarnEv, ih2]
      · rw [deleteOutputFiles_cons_enoent rest ho]
        refine ⟨ih1, ?_⟩
        simp [List.filter_cons, ho, isWarnEv, ih2]
      · have hc := hnf p (List.mem_cons_self p rest)
        rw [ho] at hc
        simp [isFailOutcome] at hc
  · intro l1 p l2 msg hpaths hnf hfail
    subst hpaths
    induction l1 with
    | nil =>
      rw [List.nil_append, deleteOutputFiles_cons_fail l2 hfail]
    | cons q l1 ih =>
      have hq := hnf q (List.mem_cons_self q l1)
      rcases ho : unlink (outputAbsPath podRoot q) with _ | _ | m
      · rw [List.cons_append, deleteOutputFiles_cons_ok _ ho]
        exact ih (fun x hx => hnf x (List.mem_cons_of_mem q hx))
      · rw [List.cons_append, deleteOutputFiles_cons_enoent _ ho]
        exact ih (fun x hx => hnf x (List.mem_cons_of_mem q hx))
      · rw [ho] at hq
        simp [isFailOutcome] at hq

/-- Concrete instance of claim C3 (amended): an ENOENT failure is warned and
the cleanup still succeeds. -/
theorem claim3_witness :
    (deleteOutputFiles unlinkMissing "/site".data ["/a/index.html".data]).2 = Except.ok ()
    ∧ ((deleteOutputFiles unlinkMissing "/site".data ["/a/index.html".data]).1.filter isWarnEv)
        = (["/a/index.html".data].filter
            (fun p => decide (unlinkMissing (outputAbsPath "/site".data p) = UnlinkOutcome.enoent))).map
            (fun p => BuildEv.warnUnlink (outputAbsPath "/site".data p)) :=
  (claim3_delete_error_handling unlinkMissing "/site".data ["/a/index.html".data]).1 (by decide)

/-! ### Claim C4 -/

/-- Counterexample to claim C4 as stated: an export can end in a fatal error
(here, a failing stale-file deletion) after the new manifest has already been
written, and the manifest write precedes the diff computation. -/
theorem claim4_counterexample :
    (exportBuild envUnlinkFail none).2
      = Except.error
          (BuildError.unlinkError "/site/build//gone/index.html".data "EACCES".data)
    ∧ BuildEv.writeManifest ∈ (exportBuild envUnlinkFail none).1 := by
  constructor
  · rfl
  · decide

/-- Claim C4 (amended): an export that fails before the write step (plugin
beforeBuild failure, empty route set, or staging failure) leaves the
previously persisted manifest and metrics untouched - its trace contains no
manifest or metrics write; however the writes happen before the diff is
computed, so in every trace no manifest or metrics write occurs after the
diff computation, and failures during stale-file deletion or afterBuild occur
after the new files are written. -/
theorem claim4_manifest_write_ordering (env : ExportEnv) (options : Option ExportOptions) :
    (∀ e : BuildError, (exportBuild env options).2 = Except.error e → isPreWriteError e = true →
       ∀ ev ∈ (exportBuild env options).1, isManifestWriteEv ev = false)
    ∧ (∀ l1 l2 : List BuildEv, (exportBuild env options).1 = l1 ++ BuildEv.computeDiff :: l2 →
       ∀ ev ∈ l2, isManifestWriteEv ev = false) := by
  rcases exportBuild_shape env options with
      ⟨msg, _, hexp⟩ | ⟨_, _, hexp⟩ | ⟨e0, _, _, _, hexp⟩ | ⟨e0, _, _, _, hdelr, hexp⟩
    | ⟨msg, _, _, _, _, _, hexp⟩ | ⟨_, _, _, _, _, hexp⟩ <;> rw [hexp] <;> constructor
  · intro e he hpre ev hev
    simp only [List.mem_singleton] at hev
    subst hev
    rfl
  · intro l1 l2 htr ev hev
    have hcd : BuildEv.computeDiff ∈ l1 ++ BuildEv.computeDiff :: l2 :=
      List.mem_append_right l1 (List.mem_cons_self _ _)
    rw [← htr] at hcd
    simp at hcd
  · intro e he hpre ev hev
    exact (preEvents_kinds ev hev).2.2.1
  · intro l1 l2 htr ev hev
    have hcd : BuildEv.computeDiff ∈ l1 ++ BuildEv.computeDiff :: l2 :=
      List.mem_append_right l1 (List.mem_cons_self _ _)
    rw [← htr] at hcd
    exact absurd rfl (preEvents_kinds _ hcd).2.2.2.2.2.2
  · intro e he hpre ev hev
    rcases List.mem_append.mp hev with h | h
    · exact (preEvents_kinds ev h).2.2.1
    · exact (stage_ev_kinds ev (stageRoutes_events _ ev h)).2.2.1
  · intro l1 l2 htr ev hev
    have hcd : BuildEv.computeDiff ∈ l1 ++ BuildEv.computeDiff :: l2 :=
      List.mem_append_right l1 (List.mem_cons_self _ _)
    rw [← htr] at hcd
    rcases List.mem_append.mp hcd with h | h
    · exact absurd rfl (preEvents_kinds _ h).2.2.2.2.2.2
    · exact absurd rfl (stage_ev_kinds _ (stageRoutes_events _ _ h)).2.2.2.2
  · intro e he hpre ev hev
    simp only [Except.error.injEq] at he
    subst he
    obtain ⟨p, m, rfl⟩ := delOf_error_form env options e0 hdelr
    simp [isPreWriteError] at hpre
  · intro l1 l2 htr ev hev
    rw [mainEvents_append] at htr
    have hl2 := unique_split _ (computeDiff_not_mem_head env options)
      (fun hm => (del_block_manifest_free env options _ hm).2 rfl) htr
    subst hl2
    exact (del_block_manifest_free env options ev hev).1
  · intro e he hpre ev hev
    simp only [Except.error.injEq] at he
    subst he
    simp [isPreWriteError] at hpre
  · intro l1 l2 htr ev hev
    rw [List.append_assoc, mainEvents_append] at htr
    have hl2 := unique_split _ (computeDiff_not_mem_head env options)
      (fun hm => (tail_block_manifest_free env options _ hm).2 rfl) htr
    subst hl2
    exact (tail_block_manifest_free env options ev hev).1
  · intro e he hpre ev hev
    cases he
  · intro l1 l2 htr ev hev
    rw [List.append_assoc, mainEvents_append] at htr
    have hl2 := unique_split _ (computeDiff_not_mem_head env options)
      (fun hm => (tail_block_manifest_free env options _ hm).2 rfl) htr
    subst hl2
    exact (tail_block_manifest_free env options ev hev).1

/-- Concrete instance of claim C4 (amended): a staging failure aborts the
export before any manifest or metrics write. -/
theorem claim4_witness :
    ∀ ev ∈ (exportBuild envRouteFail none).1, isManifestWriteEv ev = false :=
  (claim4_manifest_write_ordering envRouteFail none).1
    (BuildError.routeError 0 "render failed".data) rfl (by decide)

/-! ### Claim C6 -/

/-- Counterexample to claim C6 as stated: with an empty route list the export
does fail, but only after performing file input and output - it has already
read the previous manifest and created the temporary staging directory. -/
theorem claim6_counterexample :
    (exportBuild envNoRoutes none).2 = Except.error BuildError.noRoutes
    ∧ BuildEv.mkdtemp ∈ (exportBuild envNoRoutes none).1
    ∧ BuildEv.readManifest ∈ (exportBuild envNoRoutes none).1 := by
  refine ⟨rfl, ?_, ?_⟩ <;> decide

/-- Claim C6 (amended): an export whose selected route list is empty fails
with the empty-route-set error; its trace is exactly the beforeBuild trigger,
the previous-manifest read and the temp-directory creation, so no staging,
move, manifest-write or delete input and output has happened - but the
manifest read and temp-directory creation have. -/
theorem claim6_empty_routes (env : ExportEnv) (options : Option ExportOptions)
    (hb : env.beforeBuildResult = Except.ok ())
    (hr : selectedRoutes env options = []) :
    exportBuild env options = (preEvents, Except.error BuildError.noRoutes)
    ∧ ∀ e ∈ preEvents, isStagePhaseEv e = false ∧ isMovePhaseEv e = false
        ∧ isManifestWriteEv e = false ∧ isDeletePhaseEv e = false :=
  ⟨export_noRoutes_eq env options hb (by rw [hr]; rfl),
   fun e he => ⟨(preEvents_kinds e he).1, (preEvents_kinds e he).2.1,
     (preEvents_kinds e he).2.2.1, (preEvents_kinds e he).2.2.2.1⟩⟩

/-- Concrete instance of claim C6 (amended). -/
theorem claim6_witness :
    exportBuild envNoRoutes none = (preEvents, Except.error BuildError.noRoutes)
    ∧ ∀ e ∈ preEvents, isStagePhaseEv e = false ∧ isMovePhaseEv e = false
        ∧ isManifestWriteEv e = false ∧ isDeletePhaseEv e = false :=
  claim6_empty_routes envNoRoutes none rfl rfl

/-! ### Claim C9 -/

/-- Claim C9: for every processed route the staging runner appends exactly
one artifact and emits exactly one progress tick, whether the action
succeeded or raised; if every route succeeds the runner succeeds, and if a
route fails after a succeeding run of routes, the runner stops with the
error of that route, having booked the prefix and the failing route exactly once each; a
staging error propagates out of the export, whose trace then contains no
move-phase event and no manifest write. -/
theorem claim9_staging_bookkeeping :
    (∀ l : List (Nat × CreatedPath),
       (∀ icp ∈ l, ∃ u : Unit, icp.2.route.stageResult = Except.ok u) →
         (stageRoutes l).2.1 = l.map (fun icp => artifactOf icp.2)
         ∧ ((stageRoutes l).1.filter isTickEv).length = l.length
         ∧ (stageRoutes l).2.2 = Except.ok ())
    ∧ (∀ (l1 : List (Nat × CreatedPath)) (i : Nat) (cp : CreatedPath)
         (l2 : List (Nat × CreatedPath)) (msg : Str),
       (∀ icp ∈ l1, ∃ u : Unit, icp.2.route.stageResult = Except.ok u) →
       cp.route.stageResult = Except.error msg →
         (stageRoutes (l1 ++ (i, cp) :: l2)).2.1
             = (l1 ++ [(i, cp)]).map (fun icp => artifactOf icp.2)
         ∧ ((stageRoutes (l1 ++ (i, cp) :: l2)).1.filter isTickEv).length = l1.length + 1
         ∧ (stageRoutes (l1 ++ (i, cp) :: l2)).2.2
             = Except.error (BuildError.routeError i msg))
    ∧ (∀ (env : ExportEnv) (options : Option ExportOptions) (e : BuildError),
       (stagedOf env options).2.2 = Except.error e →
       env.beforeBuildResult = Except.ok () →
       (selectedRoutes env options).length ≠ 0 →
         (exportBuild env options).2 = Except.error e
         ∧ ∀ ev ∈ (exportBuild env options).1,
             isMoveFileEv ev = false ∧ isManifestWriteEv ev = false) := by
  refine ⟨?_, ?_, ?_⟩
  · intro l hok
    induction l with
    | nil => exact ⟨rfl, rfl, rfl⟩
    | cons icp rest ih =>
      obtain ⟨i, cp⟩ := icp
      obtain ⟨u, hu⟩ := hok (i, cp) (List.mem_cons_self _ _)
      obtain ⟨ih1, ih2, ih3⟩ := ih (fun x hx => hok x (List.mem_cons_of_mem _ hx))
      rw [stageRoutes_cons_ok i rest hu]
      refine ⟨by simp [ih1], ?_, ih3⟩
      by_cases hp : cp.route.providerType = "staticDir".data <;>
        simp [hp, List.filter_cons, isTickEv, ih2]
  · intro l1 i cp l2 msg hok herr
    induction l1 with
    | nil =>
      rw [List.nil_append, stageRoutes_cons_err i l2 herr]
      exact ⟨rfl, rfl, rfl⟩
    | cons a l1 ih =>
      obtain ⟨ia, cpa⟩ := a
      obtain ⟨u, hu⟩ := hok (ia, cpa) (List.mem_cons_self _ _)
      obtain ⟨ih1, ih2, ih3⟩ := ih (fun x hx => hok x (List.mem_cons_of_mem _ hx))
      rw [List.cons_append, stageRoutes_cons_ok ia _ hu]
      refine ⟨by simp [ih1], ?_, ih3⟩
      by_cases hp : cpa.route.providerType = "staticDir".data <;>
        simp [hp, List.filter_cons, isTickEv, ih2]
  · intro env options e hstag hb hlen
    rcases exportBuild_shape env options with
        ⟨msg, hb0, hexp⟩ | ⟨_, hl0, hexp⟩ | ⟨e0, _, _, hs0, hexp⟩ | ⟨e0, _, _, hs0, _, hexp⟩
      | ⟨msg, _, _, hs0, _, _, hexp⟩ | ⟨_, _, hs0, _, _, hexp⟩
    · rw [hb] at hb0
      cases hb0
    · exact absurd hl0 hlen
    · rw [hs0] at hstag
      simp only [Except.error.injEq] at hstag
      subst hstag
      rw [hexp]
      refine ⟨rfl, fun ev hev => ?_⟩
      rcases List.mem_append.mp hev with h | h
      · exact ⟨(preEvents_kinds ev h).2.2.2.2.2.1, (preEvents_kinds ev h).2.2.1⟩
      · exact ⟨(stage_ev_kinds ev (stageRoutes_events _ ev h)).2.2.2.1,
          (stage_ev_kinds ev (stageRoutes_events _ ev h)).2.2.1⟩
    · rw [hs0] at hstag
      cases hstag
    · rw [hs0] at hstag
      cases hstag
    · rw [hs0] at hstag
      cases hstag

/-- Concrete instance of claim C9: a pod whose single route fails to render
aborts the export with the error of that route, with no move-phase event and no
manifest write in the trace. -/
theorem claim9_witness :
    (exportBuild envRouteFail none).2
      = Except.error (BuildError.routeError 0 "render failed".data)
    ∧ ∀ ev ∈ (exportBuild envRouteFail none).1,
        isMoveFileEv ev = false ∧ isManifestWriteEv ev = false :=
  claim9_staging_bookkeeping.2.2 envRouteFail none
    (BuildError.routeError 0 "render failed".data) rfl rfl (by decide)

/-! ### Claim C10 -/

/-- Claim C10: patterns present but empty removes every route, so the export
always fails with the empty-route-set error even when the pod has routes; an
empty patterns list still counts as set, so delete suppression applies; and
an empty patterns list is not equivalent to omitting patterns, as an
otherwise identical export with patterns omitted can succeed. -/
theorem claim10_empty_patterns_list (env : ExportEnv)
    (hb : env.beforeBuildResult = Except.ok ()) :
    (exportBuild env (some ⟨some []⟩)).2 = Except.error BuildError.noRoutes
    ∧ (∀ (em : Option BuildManifest) (nm : BuildManifest),
        (cleanOutputUsingManifests em nm (some ⟨some []⟩)).deletes = [])
    ∧ (∃ (env2 : ExportEnv) (r : BuildResult),
        env2.routes ≠ [] ∧ (exportBuild env2 none).2 = Except.ok r) := by
  have hsel : selectedRoutes env (some ⟨some []⟩) = [] := by
    show env.routes.filter (routeMatchesPatterns env.globMatch []) = []
    exact List.filter_eq_nil_iff.mpr (fun r _ => by simp [routeMatchesPatterns])
  refine ⟨?_, fun em nm => cleanOutput_deletes_incremental em nm [], ?_⟩
  · have h := export_noRoutes_eq env (some ⟨some []⟩) hb (by rw [hsel]; rfl)
    rw [h]
  · refine ⟨envBase, ⟨metricsOf envBase none, manifestOf envBase none, diffOf envBase none⟩,
      List.cons_ne_nil routeOkA [], rfl⟩

/-- Concrete instance of claim C10: a pod with one route exported with an
empty patterns list fails with the empty-route-set error. -/
theorem claim10_witness :
    (exportBuild envBase (some ⟨some []⟩)).2 = Except.error BuildError.noRoutes
    ∧ (∀ (em : Option BuildManifest) (nm : BuildManifest),
        (cleanOutputUsingManifests em nm (some ⟨some []⟩)).deletes = [])
    ∧ (∃ (env2 : ExportEnv) (r : BuildResult),
        env2.routes ≠ [] ∧ (exportBuild env2 none).2 = Except.ok r) :=
  claim10_empty_patterns_list envBase rfl

/-! ## Interleaving semantics of the move phase (builder.ts lines 432-461)

async.mapLimit with concurrency bound NumConcurrentCopies = 2000 starts the
per-file task bodies concurrently (all of them at once when there are at most
2000 files).  Each body awaits, in order, the content hash of its own staged
file, its stat, and its move to the final location; the library imposes no
ordering between different bodies.  The realizable event orders are therefore
exactly the interleavings of the per-task sequences: every sequence of events
whose restriction to each task index is the hash-stat-move sequence of that
task. -/

inductive MoveAct
  | hashAct
  | statAct
  | moveAct

deriving instance DecidableEq for MoveAct

abbrev MoveEv := Nat × MoveAct

/-- The awaited effects of the task body for file i, in body order (lines
437-451): hash, stat, move. -/
def moveTaskSeq (i : Nat) : List MoveEv :=
  [(i, MoveAct.hashAct), (i, MoveAct.statAct), (i, MoveAct.moveAct)]

/-- A schedule the move phase can realize for n files: events of tasks below
n only, and the events of each task appear exactly once each, in task order. -/
abbrev ValidMoveSchedule (n : Nat) (tr : List MoveEv) : Prop :=
  (∀ e ∈ tr, e.1 < n) ∧ ∀ i, i < n → tr.filter (fun e => decide (e.1 = i)) = moveTaskSeq i

/-- The phase-separation property claimed of the move phase: whenever some
file is moved, the hash of every file has already been computed. -/
def HashPhaseBeforeMovePhase (n : Nat) (tr : List MoveEv) : Prop :=
  ∀ (l1 : List MoveEv) (j : Nat) (l2 : List MoveEv),
    tr = l1 ++ (j, MoveAct.moveAct) :: l2 → ∀ i, i < n → (i, MoveAct.hashAct) ∈ l1

/-- The schedule in which the whole first task runs before the second task:
realizable, and it moves file 0 before file 1 is hashed. -/
def interleavedSchedule : List MoveEv := moveTaskSeq 0 ++ moveTaskSeq 1

/-- Counterexample to claim C5 as stated: with two staged files there is a
realizable move-phase schedule in which a staged file is moved before the
hash of every staged file has been computed. -/
theorem claim5_counterexample :
    ValidMoveSchedule 2 interleavedSchedule
    ∧ ¬ HashPhaseBeforeMovePhase 2 interleavedSchedule := by
  refine ⟨⟨by decide, by decide⟩, ?_⟩
  intro h
  have h2 := h [(0, MoveAct.hashAct), (0, MoveAct.statAct)] 0
      [(1, MoveAct.hashAct), (1, MoveAct.statAct), (1, MoveAct.moveAct)] (by decide) 1 (by decide)
  simp at h2

/-- Claim C5 (amended): in every realizable move-phase schedule, the hash of
each file is computed before that same file is moved; hashing and moving of
different files may interleave. -/
theorem claim5_per_file_hash_before_move (n : Nat) (tr : List MoveEv)
    (h : ValidMoveSchedule n tr) (i : Nat) (hi : i < n) :
    ∃ l1 l2 l3, tr = l1 ++ (i, MoveAct.hashAct) :: l2 ++ (i, MoveAct.moveAct) :: l3 := by
  have hf := h.2 i hi
  have h1 : (tr.filter (fun e => decide (e.1 = i))).Sublist tr := List.filter_sublist tr
  rw [hf] at h1
  have h2 : ([(i, MoveAct.hashAct), (i, MoveAct.moveAct)] : List MoveEv).Sublist (moveTaskSeq i) :=
    List.Sublist.cons₂ _ (List.Sublist.cons _ (List.Sublist.refl _))
  exact pair_sublist_split (h2.trans h1)

/-- Concrete instance of claim C5 (amended) on the interleaved schedule. -/
theorem claim5_witness :
    ValidMoveSchedule 2 interleavedSchedule
    ∧ ∃ l1 l2 l3, interleavedSchedule
        = l1 ++ (0, MoveAct.hashAct) :: l2 ++ (0, MoveAct.moveAct) :: l3 :=
  ⟨⟨by decide, by decide⟩,
   claim5_per_file_hash_before_move 2 interleavedSchedule ⟨by decide, by decide⟩ 0 (by decide)⟩

end Amagaki
